import Mathlib

/-!
Verification development for the shiftPaste retrieval core.

The Python modules `src/core/search_engine.py`, `src/core/master.py` and
`src/data/database.py` are shallowly embedded below.  Characters are
modelled as their Unicode code points (`Nat`); Python float arithmetic on
match-quality scores is modelled by exact rational arithmetic (`ℚ`), and
the exponential recency scores by real arithmetic (`ℝ`).  SQLite tables
are modelled as Lean lists of rows kept in rowid (insertion) order, and a
SQL transaction is modelled by explicit committed/uncommitted states.
-/

namespace ShiftPaste

/-- Code point of a character, the domain on which normalization works. -/
def strCodes (s : String) : List Nat := s.toList.map Char.toNat

/-- SQLite's `LOWER` (and the case folding of its `LIKE`): ASCII-only —
`A`–`Z` map down by 32, every other code point is left unchanged. -/
def sqlLowerCode (n : Nat) : Nat := if 65 ≤ n ∧ n ≤ 90 then n + 32 else n

/-- Python's `str.lower()` on code points, exact on the Basic Latin and
Latin-1 blocks (the embedding domain): ASCII `A`–`Z` and `À`–`Þ`
(U+00C0–U+00DE, excluding the multiplication sign U+00D7) map down by
32; code points above U+00FF are left unchanged by the model.  Unlike
SQLite's `LOWER`, this folds non-ASCII letters such as `É` → `é`. -/
def pyLowerCode (n : Nat) : Nat :=
  if (65 ≤ n ∧ n ≤ 90) ∨ ((192 ≤ n ∧ n ≤ 222) ∧ n ≠ 215) then n + 32 else n

/-- Normalized search term of `fuzzy_left_to_right_match`:
`search_term.lower().replace(' ', '')` — Python (Unicode) lowercase,
then drop the space character (code 32) only (other whitespace is
kept). -/
def normQuery (s : String) : List Nat :=
  ((strCodes s).map pyLowerCode).filter (fun n => n ≠ 32)

/-- Normalized candidate text of `fuzzy_left_to_right_match`:
`text.lower()` — Python (Unicode) lowercase only, every character
kept. -/
def normTarget (s : String) : List Nat := (strCodes s).map pyLowerCode

/-- Index of the first occurrence of `c` in `l`, as in Python `str.find`. -/
def findIdx1 : List Nat → Nat → Option Nat
  | [], _ => none
  | a :: l, c => if a = c then some 0 else (findIdx1 l c).map (· + 1)

/-- Python `target.find(char, pos)`: first index `≥ pos` holding `c`. -/
def findIdxFrom (l : List Nat) (c : Nat) (pos : Nat) : Option Nat :=
  (findIdx1 (l.drop pos) c).map (pos + ·)

/-- The greedy scan loop of `fuzzy_left_to_right_match`: find each query
character in sequence, each search starting just after the previous
match; `none` when some character cannot be found. -/
def greedyPositions (target : List Nat) : List Nat → Nat → Option (List Nat)
  | [], _ => some []
  | c :: cs, pos =>
    match findIdxFrom target c pos with
    | none => none
    | some p => (greedyPositions target cs (p + 1)).map (p :: ·)

/-- Whether `p` is a prefix of `l` (code-point lists). -/
def startsWithSeq : List Nat → List Nat → Bool
  | [], _ => true
  | _ :: _, [] => false
  | a :: p, b :: l => a = b && startsWithSeq p l

/-- Python `p in l` on strings: `p` occurs contiguously in `l`. -/
def containsSeq (p : List Nat) : List Nat → Bool
  | [] => startsWithSeq p []
  | b :: l => startsWithSeq p (b :: l) || containsSeq p l

/-- Word-boundary separator set of the engine: space, newline, tab,
hyphen, underscore (`' \n\t-_'`). -/
def isBoundaryCode (n : Nat) : Bool :=
  n = 32 || n = 10 || n = 9 || n = 45 || n = 95

/-- `FuzzySearchEngine.fuzzy_left_to_right_match`.  Returns
`(is_match, quality_score)`; quality is exact rational arithmetic in
place of Python floats (constants `1.2` and `0.05` become `6/5` and
`1/20`). -/
def fuzzyMatch (searchTerm text : String) : Bool × ℚ :=
  let search := normQuery searchTerm
  let target := normTarget text
  if search = [] then (true, 1)
  else
    match greedyPositions target search 0 with
    | none => (false, 0)
    | some ps =>
      let first := ps.headD 0
      let lastp := ps.getLastD 0
      let span : ℤ := (lastp : ℤ) - (first : ℤ) + 1
      let density : ℚ := if 0 < span then (search.length : ℚ) / (span : ℚ) else 1
      let density : ℚ :=
        if containsSeq search target then min 1 (density * (6 / 5)) else density
      let boost : ℚ :=
        1 + (1 / 20) *
          ((ps.filter (fun p => p = 0 || isBoundaryCode (target.getD (p - 1) 0))).length : ℚ)
      (true, min 1 (density * boost))

/-- Python whitespace codes stripped by `str.strip()`, exact on the
Basic Latin and Latin-1 blocks (the embedding domain): tab through
carriage return, the separator controls U+001C–U+001F, space, next line
U+0085 and no-break space U+00A0. -/
def isWhitespaceCode (n : Nat) : Bool :=
  n = 32 || (9 ≤ n && n ≤ 13) || (28 ≤ n && n ≤ 31) || n = 133 || n = 160

/-- Python `s.strip()`: drop leading and trailing whitespace characters. -/
def pyStrip (s : String) : String :=
  ⟨(((s.data.dropWhile (fun c => isWhitespaceCode c.toNat)).reverse.dropWhile
      (fun c => isWhitespaceCode c.toNat)).reverse)⟩

/-! ### Ranking engine (`search_engine.py`, recency and combined scores)

Python float arithmetic is modelled over `ℝ`; timestamps are integer
seconds (`_parse_datetime` results), with an absent timestamp standing
for the `now` fallback of `_parse_datetime`. -/

/-- `SearchConfig` defaults of the engine. -/
structure SearchConfig where
  recencyWeight : ℝ
  qualityWeight : ℝ
  clipboardDecaySeconds : ℝ
  masterDecaySeconds : ℝ
  minQualityThreshold : ℚ

/-- The default configuration (`recency 0.7 / quality 0.3`, 24 h and 7 day
decay horizons, zero quality threshold). -/
noncomputable def defaultSearchConfig : SearchConfig :=
  ⟨7 / 10, 3 / 10, 86400, 604800, 0⟩

/-- An item dictionary as consumed by the engine: its `content`, and the
`last_copied_at` / `master_modified` timestamp fields (absent fields are
`none`; `_parse_datetime` maps an absent timestamp to `now`). -/
structure SearchItem where
  content : String
  lastCopiedAt : Option ℤ
  masterModified : Option ℤ

/-- `FuzzySearchEngine._calculate_recency_score`: exponential decay
`exp(-time_diff / decay_period)` on the raw difference `now - item_time`
(the code does not clamp a negative difference). -/
noncomputable def calculateRecencyScore (cfg : SearchConfig) (item : SearchItem)
    (now : ℤ) : ℝ :=
  match item.masterModified with
  | some t => Real.exp (-((now - t : ℤ) : ℝ) / cfg.masterDecaySeconds)
  | none =>
    let t := item.lastCopiedAt.getD now
    Real.exp (-((now - t : ℤ) : ℝ) / cfg.clipboardDecaySeconds)

/-- One ranked result row: the item together with the `search_score`,
`match_quality` and `recency_score` fields the engine attaches. -/
structure ScoredItem where
  item : SearchItem
  searchScore : ℝ
  matchQuality : ℚ
  recencyScore : ℝ

/-- `FuzzySearchEngine.rank_search_results`: keep matching items above
the quality threshold, score them, and stable-sort by combined score
descending (Python `sorted(..., reverse=True)` is a stable descending
sort; the model uses a stable insertion sort). -/
noncomputable def rankSearchResults (cfg : SearchConfig) (items : List SearchItem)
    (searchTerm : String) (now : ℤ) : List ScoredItem :=
  let scored := items.filterMap (fun it =>
    let m := fuzzyMatch searchTerm it.content
    if m.1 = false then none
    else if m.2 < cfg.minQualityThreshold then none
    else
      let recency := calculateRecencyScore cfg it now
      some ⟨it, cfg.recencyWeight * recency + cfg.qualityWeight * (m.2 : ℝ),
            m.2, recency⟩)
  scored.insertionSort (fun a b => b.searchScore ≤ a.searchScore)

/-- `FuzzySearchEngine.search`: rank, then truncate only when a limit is
present and strictly positive. -/
noncomputable def searchEngineSearch (cfg : SearchConfig) (items : List SearchItem)
    (searchTerm : String) (now : ℤ) (limit : Option ℤ) : List ScoredItem :=
  let results := rankSearchResults cfg items searchTerm now
  match limit with
  | none => results
  | some n => if 0 < n then results.take n.toNat else results

/-! ### Clipboard store (`database.py`, table `clipboard_items`)

The table is a list of rows in rowid (insertion) order; `AUTOINCREMENT`
ids are tracked by `nextId`.  The SHA-256 digest used only as a
deduplication fingerprint is modelled as an injective digest (the
identity on strings); timestamps are integer seconds. -/

/-- A `clipboard_items` row. -/
structure ClipRow where
  id : Nat
  content : String
  contentHash : String
  createdAt : ℤ
  lastCopiedAt : ℤ
  copyCount : Nat
  isFormatted : Bool
  formattedContent : Option String
deriving DecidableEq

/-- The `clipboard_items` table plus the `AUTOINCREMENT` counter. -/
structure ClipState where
  rows : List ClipRow
  nextId : Nat
deriving DecidableEq

/-- A freshly created database: no rows, next rowid 1. -/
def emptyClipState : ClipState := ⟨[], 1⟩

/-- `Database._get_hash`: the SHA-256 content digest.  The digest is
modelled as the identity function — on the embedding domain (valid
Unicode text) the digest is an injective fingerprint of the UTF-8
bytes, which is the only property the store relies on. -/
def getHash (text : String) : String := text

/-- `Database.add_clipboard_item`: try `INSERT`; on a `content_hash`
UNIQUE violation, `UPDATE` `last_copied_at` and `copy_count` of the
row(s) with that hash and re-`SELECT` the id.  Empty content returns
`-1` without touching the table. -/
def addClipboardItem (st : ClipState) (content : String) (isFormatted : Bool)
    (formattedContent : Option String) (now : ℤ) : ℤ × ClipState :=
  if content = "" then (-1, st)
  else
    let h := getHash content
    match st.rows.find? (fun r => r.contentHash == h) with
    | none =>
      ((st.nextId : ℤ),
       ⟨st.rows ++ [⟨st.nextId, content, h, now, now, 1, isFormatted, formattedContent⟩],
        st.nextId + 1⟩)
    | some _ =>
      let rows := st.rows.map (fun r =>
        if r.contentHash == h then
          { r with lastCopiedAt := now, copyCount := r.copyCount + 1 }
        else r)
      let rid : ℤ :=
        match rows.find? (fun r => r.contentHash == h) with
        | some r => (r.id : ℤ)
        | none => -1
      (rid, ⟨rows, st.nextId⟩)

/-- Repeated `record()` calls: fold `add_clipboard_item` over a list of
`(content, timestamp)` observations starting from a fresh store. -/
def recordAll (ops : List (String × ℤ)) : ClipState :=
  ops.foldl (fun st ct => (addClipboardItem st ct.1 false none ct.2).2) emptyClipState

/-- The deduplication invariant carried by the clipboard table: hashes
are pairwise distinct and each row's hash is the digest of its content. -/
def ClipInv (st : ClipState) : Prop :=
  st.rows.Pairwise (fun a b => a.contentHash ≠ b.contentHash) ∧
    ∀ r ∈ st.rows, r.contentHash = getHash r.content

/-- `Database.get_recent_items`: `ORDER BY last_copied_at DESC LIMIT ?`.
The SQL names no secondary sort key; the model resolves ties the way the
scan does, by rowid order (a stable sort of the table). -/
def getRecentItems (st : ClipState) (limit : Nat) : List ClipRow :=
  (st.rows.insertionSort (fun a b => b.lastCopiedAt ≤ a.lastCopiedAt)).take limit

/-- `clean_query` of `Database.search_clipboard`:
`query.replace(' ', '').lower()`.  The lowering happens in Python, so it
is the Unicode fold (the pattern is built before it reaches SQL). -/
def cleanQueryCodes (q : String) : List Nat :=
  ((strCodes q).filter (fun n => n ≠ 32)).map pyLowerCode

/-- `LOWER(content)` as evaluated inside the SQL query: SQLite's
ASCII-only fold, unlike the Python fold the fuzzy matcher applies. -/
def sqlLowerContent (s : String) : List Nat := (strCodes s).map sqlLowerCode

/-- The `LIKE` pattern `"%" + "%".join(list(clean_query)) + "%"` over
code points (`%` is code 37): a `%` before, between and after the query
characters — `[37, c1, 37, c2, 37, …, cn, 37]`, and `[37, 37]` for an
empty query. -/
def likePattern : List Nat → List Nat
  | [] => [37, 37]
  | [c] => [37, c, 37]
  | c :: cs => 37 :: c :: likePattern cs

/-- Whether `f` accepts some suffix of the string (used for the `%`
wildcard, which may absorb any prefix). -/
def suffixesMatch (f : List Nat → Bool) : List Nat → Bool
  | [] => f []
  | c :: s' => f (c :: s') || suffixesMatch f s'

/-- SQLite `LIKE` over code points: `%` (37) matches any run, `_` (95)
matches exactly one character, other pattern characters compare up to
SQLite's ASCII-only case folding. -/
def likeMatch : List Nat → List Nat → Bool
  | [], s => s.isEmpty
  | p :: ps, s =>
    if p = 37 then suffixesMatch (likeMatch ps) s
    else
      match s with
      | [] => false
      | c :: s' =>
        if p = 95 then likeMatch ps s'
        else (sqlLowerCode p = sqlLowerCode c) && likeMatch ps s'

/-- `Database.search_clipboard`: a blank query lists recent rows
(`LIMIT limit`); otherwise rows whose `LOWER(content)` (SQLite's
ASCII-only fold) matches the wildcard pattern, by recency, fetching
`LIMIT limit * 2` for ranking. -/
def searchClipboard (st : ClipState) (query : String) (limit : Nat) : List ClipRow :=
  if pyStrip query = "" then
    (st.rows.insertionSort (fun a b => b.lastCopiedAt ≤ a.lastCopiedAt)).take limit
  else
    let pattern := likePattern (cleanQueryCodes query)
    ((st.rows.filter (fun r => likeMatch pattern (sqlLowerContent r.content))).insertionSort
      (fun a b => b.lastCopiedAt ≤ a.lastCopiedAt)).take (limit * 2)

/-! ### Master index (`database.py` tables `master_files` / `master_items`,
and `master.py` `MasterManager.rebuild_index`)

`update_master_items` runs inside one SQLite transaction
(`with self.conn:`): the statements mutate an uncommitted working state,
an exception rolls back to the committed state, and the exception is
then swallowed (`except sqlite3.Error: print`). -/

/-- A `master_files` row. -/
structure MasterFile where
  id : Nat
  filePath : String
  isEnabled : Bool
  lastModified : Option ℤ
  lastError : Option String
deriving DecidableEq

/-- A `master_items` row. -/
structure MasterItemRow where
  id : Nat
  masterFileId : Nat
  content : String
  rowNumber : Nat
deriving DecidableEq

/-- The two master tables plus the `master_items` id counter. -/
structure MasterState where
  files : List MasterFile
  items : List MasterItemRow
  nextItemId : Nat
deriving DecidableEq

/-- Whether the `master_files` row of a given id is enabled (`false`
when no such row exists, as the `JOIN` drops orphans). -/
def fileEnabled (st : MasterState) (fid : Nat) : Bool :=
  match st.files.find? (fun f => f.id == fid) with
  | some f => f.isEnabled
  | none => false

/-- `Database.get_all_master_items`: items joined with their file,
restricted to `is_enabled = 1` files. -/
def getAllMasterItems (st : MasterState) : List MasterItemRow :=
  st.items.filter (fun i => fileEnabled st i.masterFileId)

/-- Statement `DELETE FROM master_items WHERE master_file_id = ?`. -/
def deleteItemsOp (fid : Nat) (st : MasterState) : MasterState :=
  { st with items := st.items.filter (fun i => i.masterFileId ≠ fid) }

/-- One row of the batched
`INSERT INTO master_items (master_file_id, content, row_number)`. -/
def insertItemOp (fid : Nat) (content : String) (rowNumber : Nat)
    (st : MasterState) : MasterState :=
  { st with
    items := st.items ++ [⟨st.nextItemId, fid, content, rowNumber⟩],
    nextItemId := st.nextItemId + 1 }

/-- Statement `UPDATE master_files SET last_modified = ?,
last_error = NULL WHERE id = ?`. -/
def stampFileOp (fid : Nat) (now : ℤ) (st : MasterState) : MasterState :=
  { st with files := st.files.map (fun f =>
      if f.id == fid then { f with lastModified := some now, lastError := none }
      else f) }

/-- The statement sequence executed by `update_master_items`. -/
def masterWriteOps (fid : Nat) (items : List (String × Nat)) (now : ℤ) :
    List (MasterState → MasterState) :=
  deleteItemsOp fid :: items.map (fun ci => insertItemOp fid ci.1 ci.2) ++
    [stampFileOp fid now]

/-- A rollback discards the uncommitted working state and keeps the
committed state. -/
def rollbackTo (committed _uncommitted : MasterState) : MasterState := committed

/-- Transaction semantics of `with self.conn:`: without a failure every
statement applies and the working state commits; a failure after `k`
statements rolls the working state back to the committed one. -/
def runTxn (st : MasterState) (ops : List (MasterState → MasterState))
    (failAt : Option Nat) : MasterState :=
  match failAt with
  | none => ops.foldl (fun s f => f s) st
  | some k => rollbackTo st ((ops.take k).foldl (fun s f => f s) st)

/-- `Database.update_master_items`: run the rebuild statements in one
transaction; a `sqlite3.Error` is caught internally (the caller sees a
normal return either way). -/
def updateMasterItems (st : MasterState) (fid : Nat) (items : List (String × Nat))
    (now : ℤ) (failAt : Option Nat) : MasterState :=
  runTxn st (masterWriteOps fid items now) failAt

/-- `MasterManager._mark_file_error`: record the (truncated) error text
and disable the source. -/
def markFileError (st : MasterState) (fid : Nat) (err : String) : MasterState :=
  { st with files := st.files.map (fun f =>
      if f.id == fid then { f with lastError := some (err.take 500), isEnabled := false }
      else f) }

/-- The success tail of `MasterManager.rebuild_index`:
`UPDATE master_files SET last_error = NULL, is_enabled = 1 WHERE id = ?`. -/
def clearErrorAndEnable (st : MasterState) (fid : Nat) : MasterState :=
  { st with files := st.files.map (fun f =>
      if f.id == fid then { f with lastError := none, isEnabled := true }
      else f) }

/-- Outcome of `openpyxl.load_workbook` + active-sheet lookup for one
rebuild, as seen by `rebuild_index`: the file may be missing, loading
may raise, the workbook may lack an active sheet, or a sheet of
first-column cell values is read. -/
inductive WorkbookLoad where
  | fileMissing
  | loadFailed (msg : String)
  | noActiveSheet
  | sheet (cells : List (Option String))
deriving DecidableEq

/-- The item-extraction loop of `rebuild_index`: first-column values,
1-based row numbers, `None` cells and whitespace-only text skipped. -/
def extractItems (cells : List (Option String)) : List (String × Nat) :=
  (List.enumFrom 1 cells).filterMap (fun ic =>
    match ic.2 with
    | none => none
    | some v =>
      let text := pyStrip v
      if text = "" then none else some (text, ic.1))

/-- `MasterManager.rebuild_index`: missing files and unregistered paths
are ignored; a load failure or missing sheet marks the source as
disabled-with-error; otherwise the items are rewritten (any storage
failure inside the write is swallowed by `update_master_items`) and the
source is re-enabled with its error cleared. -/
def rebuildIndex (st : MasterState) (filePath : String) (load : WorkbookLoad)
    (writeFailAt : Option Nat) (now : ℤ) : MasterState :=
  if load = .fileMissing then st
  else
    match st.files.find? (fun f => f.filePath == filePath) with
    | none => st
    | some f =>
      match load with
      | .fileMissing => st
      | .loadFailed msg => markFileError st f.id msg
      | .noActiveSheet => markFileError st f.id "No active sheet found"
      | .sheet cells =>
        let st1 := updateMasterItems st f.id (extractItems cells) now writeFailAt
        clearErrorAndEnable st1 f.id

/-- The `last_error` column of the (first) `master_files` row with a
given id, `none` when no such row exists. -/
def lastErrorOf (st : MasterState) (fid : Nat) : Option (Option String) :=
  (st.files.find? (fun f => f.id == fid)).map (fun f => f.lastError)

/-- The enabled master items of one source, projected to the
`(content, row_number)` pairs a reindex writes. -/
def enabledItemsOf (st : MasterState) (fid : Nat) : List (String × Nat) :=
  ((getAllMasterItems st).filter (fun i => i.masterFileId == fid)).map
    (fun i => (i.content, i.rowNumber))

/-! ### Concrete stores used to separate claims from the code -/

/-- A store of 101 distinct rows `"a"`, `"aa"`, …, all matching the
query `"a"`, with strictly increasing timestamps; rowid `i + 1` was
touched at time `i + 1`. -/
def exManyRows : List ClipRow :=
  (List.range 101).map (fun i =>
    ⟨i + 1, ⟨List.replicate (i + 1) 'a'⟩, ⟨List.replicate (i + 1) 'a'⟩,
     (i : ℤ) + 1, (i : ℤ) + 1, 1, false, none⟩)

/-- The 101-row store as a `ClipState`. -/
def exManyState : ClipState := ⟨exManyRows, 102⟩

/-- A one-row store whose only content is the single non-ASCII capital
letter `"É"` (U+00C9): Python lowercases it to `é`, SQLite's `LOWER`
and `LIKE` leave it uppercase. -/
def exAccentState : ClipState := ⟨[⟨1, "É", "É", 1, 1, 1, false, none⟩], 2⟩

/-- Two rows with the same `last_copied_at` timestamp, rowids 1 and 2. -/
def exTieState : ClipState :=
  ⟨[⟨1, "p", "p", 5, 5, 1, false, none⟩, ⟨2, "q", "q", 5, 5, 1, false, none⟩], 3⟩

/-- One registered, enabled master source (id 1, path `m.xlsx`) whose
index currently holds the single item `"old"`. -/
def exMasterState : MasterState :=
  ⟨[⟨1, "m.xlsx", true, none, none⟩], [⟨1, 1, "old", 1⟩], 2⟩

/-- A rebuild of that source that reads `"new"` from the sheet but hits
a storage failure on the very first write statement. -/
def exFailedRebuild : MasterState :=
  rebuildIndex exMasterState "m.xlsx" (.sheet [some "new"]) (some 0) 10

/-- A master item dated one day in the future of `now = 0` (clock skew:
its reference timestamp is `86400` seconds ahead). -/
def futureMasterItem : SearchItem := ⟨"x", none, some 86400⟩

/-- A clipboard item dated one day in the future of `now = 0`. -/
def futureClipItem : SearchItem := ⟨"x", some 86400, none⟩

/-! ## Lemmas -/

lemma pyLowerCode_eq_space {n : Nat} : pyLowerCode n = 32 ↔ n = 32 := by
  unfold pyLowerCode; split <;> omega

lemma cleanQueryCodes_eq_normQuery (q : String) : cleanQueryCodes q = normQuery q := by
  unfold cleanQueryCodes normQuery
  rw [List.filter_map]
  congr 1
  apply List.filter_congr
  intro n _
  simp [Function.comp, pyLowerCode_eq_space]

lemma findIdx1_decomp : ∀ {l : List Nat} {c j : Nat}, findIdx1 l c = some j →
    ∀ {rest : List Nat}, List.Sublist rest (l.drop (j + 1)) → List.Sublist (c :: rest) l := by
  intro l
  induction l with
  | nil => intro c j h; simp [findIdx1] at h
  | cons a l ih =>
    intro c j h rest hr
    unfold findIdx1 at h
    by_cases hac : a = c
    · rw [if_pos hac] at h
      cases h
      subst hac
      exact hr.cons₂ a
    · rw [if_neg hac] at h
      cases hfi : findIdx1 l c with
      | none => rw [hfi] at h; simp at h
      | some j' =>
        rw [hfi] at h
        simp at h
        subst h
        exact (ih hfi hr).cons a

lemma greedy_sublist {target : List Nat} : ∀ (cs : List Nat) (pos : Nat) (ps : List Nat),
    greedyPositions target cs pos = some ps → List.Sublist cs (target.drop pos) := by
  intro cs
  induction cs with
  | nil => intro pos ps _; exact List.nil_sublist _
  | cons c cs ih =>
    intro pos ps h
    unfold greedyPositions at h
    cases hf : findIdxFrom target c pos with
    | none => rw [hf] at h; simp at h
    | some p =>
      rw [hf] at h
      simp only [Option.map_eq_some'] at h
      obtain ⟨ps', hg, -⟩ := h
      unfold findIdxFrom at hf
      cases hfi : findIdx1 (target.drop pos) c with
      | none => rw [hfi] at hf; simp at hf
      | some j =>
        rw [hfi] at hf
        simp at hf
        have hrest : List.Sublist cs ((target.drop pos).drop (j + 1)) := by
          rw [List.drop_drop]
          have h2 : pos + (j + 1) = p + 1 := by omega
          rw [h2]
          exact ih (p + 1) ps' hg
        exact findIdx1_decomp hfi hrest

lemma fuzzyMatch_fst_true_sublist (q t : String) :
    (fuzzyMatch q t).1 = true → List.Sublist (normQuery q) (normTarget t) := by
  intro h
  unfold fuzzyMatch at h
  by_cases hq : normQuery q = []
  · rw [hq]; exact List.nil_sublist _
  · rw [if_neg hq] at h
    cases hg : greedyPositions (normTarget t) (normQuery q) 0 with
    | none => rw [hg] at h; simp at h
    | some ps =>
      have := @greedy_sublist (normTarget t) (normQuery q) 0 ps hg
      simpa using this

lemma suffixesMatch_self {f : List Nat → Bool} {s : List Nat} (h : f s = true) :
    suffixesMatch f s = true := by
  cases s <;> simp [suffixesMatch, h]

lemma suffixesMatch_nil {f : List Nat → Bool} (h : f [] = true) :
    ∀ s, suffixesMatch f s = true := by
  intro s
  induction s with
  | nil => simpa [suffixesMatch]
  | cons c s ih => simp [suffixesMatch, ih]

lemma likeMatch_pct_nil (s : List Nat) : likeMatch [37] s = true := by
  simp only [likeMatch, reduceIte]
  exact suffixesMatch_nil rfl s

lemma likeMatch_pct_cons {ps s : List Nat} (h : likeMatch (37 :: ps) s = true) (a : Nat) :
    likeMatch (37 :: ps) (a :: s) = true := by
  simp only [likeMatch, reduceIte] at h ⊢
  simp [suffixesMatch, h]

lemma likeMatch_cons_self {c : Nat} {ps s' : List Nat} (h : likeMatch ps s' = true) :
    likeMatch (c :: ps) (c :: s') = true := by
  by_cases hc : c = 37
  · subst hc
    simp only [likeMatch, reduceIte]
    simp [suffixesMatch, suffixesMatch_self h]
  · by_cases h95 : c = 95
    · subst h95
      simp [likeMatch, h]
    · simp [likeMatch, hc, h95, h]

lemma likePattern_starts_pct (cs : List Nat) : ∃ ps, likePattern cs = 37 :: ps := by
  cases cs with
  | nil => exact ⟨[37], rfl⟩
  | cons c cs =>
    cases cs with
    | nil => exact ⟨[c, 37], rfl⟩
    | cons d cs => exact ⟨c :: likePattern (d :: cs), rfl⟩

lemma likeMatch_likePattern_of_sublist : ∀ {cs s : List Nat}, List.Sublist cs s →
    likeMatch (likePattern cs) s = true := by
  intro cs s h
  induction h with
  | slnil => decide
  | @cons l₁ l₂ a h ih =>
    obtain ⟨ps, hps⟩ := likePattern_starts_pct l₁
    rw [hps] at ih ⊢
    exact likeMatch_pct_cons ih a
  | @cons₂ l₁ l₂ a h ih =>
    cases l₁ with
    | nil =>
      have h1 : likeMatch [a, 37] (a :: l₂) = true :=
        likeMatch_cons_self (likeMatch_pct_nil l₂)
      show suffixesMatch (likeMatch [a, 37]) (a :: l₂) = true
      exact suffixesMatch_self h1
    | cons d cs'' =>
      have h1 : likeMatch (a :: likePattern (d :: cs'')) (a :: l₂) = true :=
        likeMatch_cons_self ih
      show suffixesMatch (likeMatch (a :: likePattern (d :: cs''))) (a :: l₂) = true
      exact suffixesMatch_self h1

lemma mem_searchClipboard_of_fuzzy (st : ClipState) (q : String) (limit : Nat)
    (row : ClipRow) (hmem : row ∈ st.rows)
    (hfuzzy : (fuzzyMatch q row.content).1 = true)
    (hfold : ∀ n ∈ strCodes row.content, pyLowerCode n = sqlLowerCode n)
    (hlen : st.rows.length ≤ limit) : row ∈ searchClipboard st q limit := by
  unfold searchClipboard
  by_cases hq : pyStrip q = ""
  · rw [if_pos hq, List.take_of_length_le]
    · exact (List.mem_insertionSort _).mpr hmem
    · rw [(List.perm_insertionSort _ _).length_eq]
      exact hlen
  · rw [if_neg hq]
    have htarget : sqlLowerContent row.content = normTarget row.content := by
      unfold sqlLowerContent normTarget
      exact (List.map_congr_left hfold).symm
    have hlike : likeMatch (likePattern (cleanQueryCodes q))
        (sqlLowerContent row.content) = true := by
      rw [cleanQueryCodes_eq_normQuery, htarget]
      exact likeMatch_likePattern_of_sublist (fuzzyMatch_fst_true_sublist q row.content hfuzzy)
    have hmf : row ∈ st.rows.filter
        (fun r => likeMatch (likePattern (cleanQueryCodes q)) (sqlLowerContent r.content)) :=
      List.mem_filter.mpr ⟨hmem, hlike⟩
    rw [List.take_of_length_le]
    · exact (List.mem_insertionSort _).mpr hmf
    · rw [(List.perm_insertionSort _ _).length_eq]
      calc (st.rows.filter _).length ≤ st.rows.length := List.length_filter_le _ _
        _ ≤ limit := hlen
        _ ≤ limit * 2 := by omega

lemma addClipboardItem_noop (st : ClipState) (f : Bool) (fc : Option String) (t : ℤ) :
    addClipboardItem st "" f fc t = (-1, st) := by
  unfold addClipboardItem
  rw [if_pos rfl]

lemma addClipboardItem_state_insert (st : ClipState) (c : String) (f : Bool)
    (fc : Option String) (t : ℤ) (hc : c ≠ "")
    (hfind : st.rows.find? (fun r => r.contentHash == getHash c) = none) :
    (addClipboardItem st c f fc t).2 =
      ⟨st.rows ++ [⟨st.nextId, c, getHash c, t, t, 1, f, fc⟩], st.nextId + 1⟩ := by
  unfold addClipboardItem
  rw [if_neg hc]
  simp only [hfind]

lemma addClipboardItem_state_update (st : ClipState) (c : String) (f : Bool)
    (fc : Option String) (t : ℤ) (r0 : ClipRow) (hc : c ≠ "")
    (hfind : st.rows.find? (fun r => r.contentHash == getHash c) = some r0) :
    (addClipboardItem st c f fc t).2 =
      ⟨st.rows.map (fun r =>
        if r.contentHash == getHash c then
          { r with lastCopiedAt := t, copyCount := r.copyCount + 1 }
        else r), st.nextId⟩ := by
  unfold addClipboardItem
  rw [if_neg hc]
  simp only [hfind]

lemma addClipboardItem_inv (st : ClipState) (c : String) (f : Bool)
    (fc : Option String) (t : ℤ) (h : ClipInv st) :
    ClipInv (addClipboardItem st c f fc t).2 := by
  obtain ⟨hpw, hh⟩ := h
  by_cases hc : c = ""
  · subst hc
    rw [addClipboardItem_noop]
    exact ⟨hpw, hh⟩
  · cases hfind : st.rows.find? (fun r => r.contentHash == getHash c) with
    | none =>
      rw [addClipboardItem_state_insert st c f fc t hc hfind]
      refine ⟨?_, ?_⟩
      · rw [List.pairwise_append]
        refine ⟨hpw, List.pairwise_singleton _ _, ?_⟩
        intro a ha b hb
        rw [List.mem_singleton] at hb
        subst hb
        have := List.find?_eq_none.mp hfind a ha
        simpa using this
      · intro r hr
        rw [List.mem_append, List.mem_singleton] at hr
        cases hr with
        | inl hr => exact hh r hr
        | inr hr => subst hr; rfl
    | some r0 =>
      rw [addClipboardItem_state_update st c f fc t r0 hc hfind]
      refine ⟨?_, ?_⟩
      · rw [List.pairwise_map]
        refine hpw.imp_of_mem ?_
        intro a b _ _ hab
        by_cases ha : (a.contentHash == getHash c) = true <;>
          by_cases hb : (b.contentHash == getHash c) = true <;>
            simp [ha, hb, hab]
      · intro r hr
        rw [List.mem_map] at hr
        obtain ⟨a, ha, hr⟩ := hr
        subst hr
        split <;> simp [hh a ha]

lemma recordAll_inv (ops : List (String × ℤ)) : ClipInv (recordAll ops) := by
  unfold recordAll
  have h0 : ClipInv emptyClipState :=
    ⟨List.Pairwise.nil, by intro r hr; simp [emptyClipState] at hr⟩
  generalize emptyClipState = st0 at h0 ⊢
  induction ops generalizing st0 with
  | nil => exact h0
  | cons op ops ih =>
    exact ih _ (addClipboardItem_inv st0 op.1 false none op.2 h0)

lemma recordAll_two_then_distinct (C D : String) (t1 t2 t3 : ℤ)
    (hC : C ≠ "") (hD : D ≠ "") (hDC : D ≠ C) :
    recordAll [(C, t1), (C, t2), (D, t3)] =
      ⟨[⟨1, C, C, t1, t2, 2, false, none⟩, ⟨2, D, D, t3, t3, 1, false, none⟩], 3⟩ := by
  have e1 : (addClipboardItem emptyClipState C false none t1).2 =
      ⟨[⟨1, C, C, t1, t1, 1, false, none⟩], 2⟩ := by
    rw [addClipboardItem_state_insert _ _ _ _ _ hC (by simp [emptyClipState])]
    simp [emptyClipState, getHash]
  have e2 : (addClipboardItem (⟨[⟨1, C, C, t1, t1, 1, false, none⟩], 2⟩ : ClipState)
      C false none t2).2 = ⟨[⟨1, C, C, t1, t2, 2, false, none⟩], 2⟩ := by
    rw [addClipboardItem_state_update _ _ _ _ _ ⟨1, C, C, t1, t1, 1, false, none⟩ hC
      (List.find?_cons_of_pos _ (by simp [getHash]))]
    simp [getHash]
  have e3 : (addClipboardItem (⟨[⟨1, C, C, t1, t2, 2, false, none⟩], 2⟩ : ClipState)
      D false none t3).2 =
      ⟨[⟨1, C, C, t1, t2, 2, false, none⟩, ⟨2, D, D, t3, t3, 1, false, none⟩], 3⟩ := by
    rw [addClipboardItem_state_insert _ _ _ _ _ hD ?hf]
    case hf =>
      rw [List.find?_cons_of_neg _ (by simp [getHash]; exact hDC.symm)]
      rfl
    simp [getHash]
  show (addClipboardItem (addClipboardItem (addClipboardItem emptyClipState
    C false none t1).2 C false none t2).2 D false none t3).2 = _
  rw [e1, e2, e3]

/-! ## Claim theorems -/

/-- C1.  Deduplication invariant and idempotence: after any sequence of
`record()` calls from a fresh store the rows have pairwise distinct
contents (at most one row per distinct content), and concretely,
recording a non-empty `C` twice and then a distinct non-empty `D` yields
exactly the two rows — one for `C` with `copy_count = 2` and
`last_copied_at` advanced by the second call, one fresh row for `D`. -/
theorem C1_dedup_idempotence :
    (∀ ops : List (String × ℤ),
      (recordAll ops).rows.Pairwise (fun a b => a.content ≠ b.content)) ∧
    ∀ (C D : String) (t1 t2 t3 : ℤ), C ≠ "" → D ≠ "" → D ≠ C →
      recordAll [(C, t1), (C, t2), (D, t3)] =
        ⟨[⟨1, C, C, t1, t2, 2, false, none⟩, ⟨2, D, D, t3, t3, 1, false, none⟩], 3⟩ := by
  constructor
  · intro ops
    obtain ⟨hpw, hh⟩ := recordAll_inv ops
    refine hpw.imp_of_mem ?_
    intro a b ha hb hne hcontent
    exact hne (by rw [hh a ha, hh b hb, hcontent])
  · intro C D t1 t2 t3 hC hD hDC
    exact recordAll_two_then_distinct C D t1 t2 t3 hC hD hDC

/-- Witness for C1 at concrete contents `"a"`, `"b"`. -/
theorem C1_dedup_idempotence_witness :
    recordAll [("a", 0), ("a", 1), ("b", 2)] =
      ⟨[⟨1, "a", "a", 0, 1, 2, false, none⟩, ⟨2, "b", "b", 2, 2, 1, false, none⟩], 3⟩ :=
  C1_dedup_idempotence.2 "a" "b" 0 1 2 (by decide) (by decide) (by decide)

lemma fuzzyMatch_abc_aXbXc : fuzzyMatch "abc" "aXbXc" = (true, 63 / 100) := by
  have h1 : normQuery "abc" = [97, 98, 99] := by decide
  have h2 : normTarget "aXbXc" = [97, 120, 98, 120, 99] := by decide
  simp only [fuzzyMatch, h1, h2]
  norm_num [greedyPositions, findIdxFrom, findIdx1, containsSeq, startsWithSeq,
    isBoundaryCode, min_def]
  decide

/-- C3 (counterexample).  `match("abc", "aXbXc")` does not return
quality `0.6`: the first matched character sits at position 0, a word
boundary, so the `1.05` word-boundary boost applies and the quality is
`0.6 × 1.05 = 0.63`. -/
theorem C3_cex_quality_not_point_six : fuzzyMatch "abc" "aXbXc" ≠ (true, 3 / 5) := by
  rw [fuzzyMatch_abc_aXbXc]
  intro h
  have h2 := congrArg Prod.snd h
  norm_num at h2

/-- C3 (amended).  Match determinism on the three reference inputs:
`match("abc", "aXbXc")` matches with quality exactly `0.63` (density
`3/5` times the `1.05` start-of-text word-boundary boost);
`match("abc", "abc")` matches with quality exactly `1.0`;
`match("xyz", "abc")` does not match, quality exactly `0.0`. -/
theorem C3_match_determinism :
    fuzzyMatch "abc" "aXbXc" = (true, 63 / 100) ∧
    fuzzyMatch "abc" "abc" = (true, 1) ∧
    fuzzyMatch "xyz" "abc" = (false, 0) := by
  refine ⟨fuzzyMatch_abc_aXbXc, ?_, ?_⟩
  · have h1 : normQuery "abc" = [97, 98, 99] := by decide
    have h2 : normTarget "abc" = [97, 98, 99] := by decide
    simp only [fuzzyMatch, h1, h2]
    norm_num [greedyPositions, findIdxFrom, findIdx1, containsSeq, startsWithSeq,
      isBoundaryCode, min_def]
  · have h1 : normQuery "xyz" = [120, 121, 122] := by decide
    have h2 : normTarget "abc" = [97, 98, 99] := by decide
    simp only [fuzzyMatch, h1, h2]
    norm_num [greedyPositions, findIdxFrom, findIdx1]
    decide

/-- C4 (counterexample).  Recording the whitespace-only content `" "`
(one space) is not a no-op: the store gains a row and the returned id is
the fresh rowid `1`, not the no-op marker `-1` — the code rejects only
the empty string (`if not content`). -/
theorem C4_cex_whitespace_recorded :
    (addClipboardItem emptyClipState " " false none 0).1 ≠ -1 ∧
    (addClipboardItem emptyClipState " " false none 0).2.rows ≠ [] := by
  decide

/-- C4 (amended).  Only empty content is a defined no-op: `record("")`
returns the `-1` no-op marker and leaves the store untouched, while
whitespace-only non-empty content (for example `" "`) is stored like any
other content. -/
theorem C4_empty_content_noop :
    (∀ (st : ClipState) (f : Bool) (fc : Option String) (t : ℤ),
      addClipboardItem st "" f fc t = (-1, st)) ∧
    addClipboardItem emptyClipState " " false none 0 =
      (1, ⟨[⟨1, " ", " ", 0, 0, 1, false, none⟩], 2⟩) := by
  refine ⟨fun st f fc t => addClipboardItem_noop st f fc t, ?_⟩
  decide

lemma min_one_nonneg {x : ℚ} (hx : 0 ≤ x) : 0 ≤ min 1 x :=
  le_min (by norm_num) hx

/-- C8.  Quality score bounds: for every query and candidate the
returned quality lies in `[0, 1]`, and a non-matching candidate scores
exactly `0`. -/
theorem C8_quality_bounds (q t : String) :
    0 ≤ (fuzzyMatch q t).2 ∧ (fuzzyMatch q t).2 ≤ 1 ∧
      ((fuzzyMatch q t).1 = false → (fuzzyMatch q t).2 = 0) := by
  simp only [fuzzyMatch]
  by_cases hq : normQuery q = []
  · rw [if_pos hq]
    norm_num
  · rw [if_neg hq]
    cases hg : greedyPositions (normTarget t) (normQuery q) 0 with
    | none =>
      norm_num
    | some ps =>
      refine ⟨?_, ?_, ?_⟩
      · show 0 ≤ min 1 _
        refine min_one_nonneg (mul_nonneg ?_ ?_)
        · split_ifs with h1 h2 h3
          · exact min_one_nonneg (mul_nonneg
              (div_nonneg (by positivity) (by exact_mod_cast h2.le)) (by norm_num))
          · exact min_one_nonneg (mul_nonneg (by norm_num) (by norm_num))
          · exact div_nonneg (by positivity) (by exact_mod_cast h3.le)
          · norm_num
        · positivity
      · show min 1 _ ≤ 1
        exact min_le_left _ _
      · intro hfalse
        exact absurd hfalse (by simp)

/-- Witness for C8 at the concrete non-matching pair
`("xyz", "abc")`. -/
theorem C8_quality_bounds_witness :
    0 ≤ (fuzzyMatch "xyz" "abc").2 ∧ (fuzzyMatch "xyz" "abc").2 ≤ 1 ∧
      ((fuzzyMatch "xyz" "abc").1 = false → (fuzzyMatch "xyz" "abc").2 = 0) :=
  C8_quality_bounds "xyz" "abc"

/-- C2 (counterexample).  The candidate query is not conservative, in
two independent ways.  Case folding: for query `"é"` against the
one-row store holding `"É"`, the fuzzy matcher accepts (Python
lowercases `É` to `é`) but `LOWER(content) LIKE '%é%'` fails (SQLite
folds only ASCII), so the row is missing from the candidate set with no
truncation involved.  Truncation: in a store of 101 rows that all
fuzzy-match the query `"a"`, the `LIMIT limit * 2` fetch at the default
`limit = 50` drops the oldest row even though the fuzzy matcher accepts
it. -/
theorem C2_cex_prefilter_not_conservative :
    ((fuzzyMatch "é" "É").1 = true ∧
     (⟨1, "É", "É", 1, 1, 1, false, none⟩ : ClipRow) ∈ exAccentState.rows ∧
     (⟨1, "É", "É", 1, 1, 1, false, none⟩ : ClipRow) ∉
       searchClipboard exAccentState "é" 50) ∧
    ((fuzzyMatch "a" "a").1 = true ∧
     (⟨1, "a", "a", 1, 1, 1, false, none⟩ : ClipRow) ∈ exManyState.rows ∧
     (⟨1, "a", "a", 1, 1, 1, false, none⟩ : ClipRow) ∉
       searchClipboard exManyState "a" 50) := by
  refine ⟨⟨by decide, by decide, by decide⟩, ⟨by decide, by decide, by decide⟩⟩

/-- C2 (amended).  The pre-filter is conservative exactly on content
whose characters lowercase the same way under Python and under SQLite
(in particular all ASCII content): for such a stored row, whenever the
fuzzy matcher accepts its content for a query, the row satisfies the
wildcard `LIKE` pattern and is returned by the candidate query,
provided the store is small enough (row count at most `limit`) that the
`LIMIT` truncation cannot drop it.  Outside these conditions the
pre-filter can reject fuzzy-accepted items (non-ASCII uppercase
content, or stores larger than the fetch limit). -/
theorem C2_prefilter_conservative (st : ClipState) (q : String) (limit : Nat)
    (row : ClipRow) (hmem : row ∈ st.rows)
    (hfuzzy : (fuzzyMatch q row.content).1 = true)
    (hfold : ∀ n ∈ strCodes row.content, pyLowerCode n = sqlLowerCode n)
    (hlen : st.rows.length ≤ limit) : row ∈ searchClipboard st q limit :=
  mem_searchClipboard_of_fuzzy st q limit row hmem hfuzzy hfold hlen

/-- Witness for C2 on a one-row ASCII store with query `"a"`. -/
theorem C2_prefilter_conservative_witness :
    (⟨1, "a", "a", 1, 1, 1, false, none⟩ : ClipRow) ∈
      searchClipboard ⟨[⟨1, "a", "a", 1, 1, 1, false, none⟩], 2⟩ "a" 1 :=
  C2_prefilter_conservative ⟨[⟨1, "a", "a", 1, 1, 1, false, none⟩], 2⟩ "a" 1
    ⟨1, "a", "a", 1, 1, 1, false, none⟩ (by decide) (by decide) (by decide) (by decide)

/-- C9 (counterexample).  `recent(limit)` does not break timestamp ties
by id descending: on two rows that share `last_copied_at = 5`, the query
(`ORDER BY last_copied_at DESC` with no secondary key, modelled as the
stable scan in rowid order) returns rowid 1 before rowid 2. -/
theorem C9_cex_tie_not_id_descending :
    ¬ (getRecentItems exTieState 2).Pairwise
        (fun a b => b.lastCopiedAt < a.lastCopiedAt ∨
          (b.lastCopiedAt = a.lastCopiedAt ∧ b.id < a.id)) := by
  decide

/-- C9 (amended).  `recent(limit)` returns rows ordered by
`last_copied_at` descending for every store and limit; the SQL names no
secondary sort key, and rows tied on the timestamp surface in rowid
(insertion) order — most recently inserted last, as the concrete
two-row tie shows. -/
theorem C9_recent_ordering :
    (∀ (st : ClipState) (limit : Nat),
      (getRecentItems st limit).Pairwise
        (fun a b => b.lastCopiedAt ≤ a.lastCopiedAt)) ∧
    getRecentItems exTieState 2 =
      [⟨1, "p", "p", 5, 5, 1, false, none⟩, ⟨2, "q", "q", 5, 5, 1, false, none⟩] := by
  constructor
  · intro st limit
    haveI : IsTotal ClipRow (fun a b => b.lastCopiedAt ≤ a.lastCopiedAt) :=
      ⟨fun a b => Int.le_total b.lastCopiedAt a.lastCopiedAt⟩
    haveI : IsTrans ClipRow (fun a b => b.lastCopiedAt ≤ a.lastCopiedAt) :=
      ⟨fun _ _ _ hab hbc => le_trans hbc hab⟩
    exact List.Pairwise.sublist (List.take_sublist _ _)
      (List.sorted_insertionSort _ _)
  · decide

/-- C10.  The engine's `search` applies its limit only when present and
strictly positive — absent, zero or negative limits return the complete
ranked list, a positive limit returns its prefix — whereas `recent()`
with `limit = 0` returns the empty sequence. -/
theorem C10_search_limit_semantics :
    (∀ (cfg : SearchConfig) (items : List SearchItem) (q : String) (now : ℤ),
      searchEngineSearch cfg items q now none = rankSearchResults cfg items q now) ∧
    (∀ (cfg : SearchConfig) (items : List SearchItem) (q : String) (now : ℤ) (n : ℤ),
      n ≤ 0 →
      searchEngineSearch cfg items q now (some n) = rankSearchResults cfg items q now) ∧
    (∀ (cfg : SearchConfig) (items : List SearchItem) (q : String) (now : ℤ) (n : ℤ),
      0 < n →
      searchEngineSearch cfg items q now (some n) =
        (rankSearchResults cfg items q now).take n.toNat) ∧
    ∀ st : ClipState, getRecentItems st 0 = [] := by
  refine ⟨fun _ _ _ _ => rfl, ?_, ?_, fun st => rfl⟩
  · intro cfg items q now n hn
    simp only [searchEngineSearch]
    rw [if_neg (not_lt.mpr hn)]
  · intro cfg items q now n hn
    simp only [searchEngineSearch]
    rw [if_pos hn]

/-- Witness for C10 at limits `0` and `2` on an empty item list. -/
theorem C10_search_limit_semantics_witness :
    searchEngineSearch defaultSearchConfig [] "" 0 (some 0) =
      rankSearchResults defaultSearchConfig [] "" 0 ∧
    searchEngineSearch defaultSearchConfig [] "" 0 (some 2) =
      (rankSearchResults defaultSearchConfig [] "" 0).take (Int.toNat 2) :=
  ⟨C10_search_limit_semantics.2.1 defaultSearchConfig [] "" 0 0 (le_refl 0),
   C10_search_limit_semantics.2.2.1 defaultSearchConfig [] "" 0 2 (by decide)⟩

/-- C7.  The code does not clamp a negative elapsed time, contradicting
both the claim's formula and the function's own documented `[0, 1]`
range: for a reference timestamp one day in the future of `now`
(elapsed `-86400` s), the durable (master) item's recency score
`exp(86400/604800)` is strictly below the volatile (clipboard) item's
`exp(1)`, and the volatile score exceeds `1`. -/
theorem C7_recency_unclamped_future :
    calculateRecencyScore defaultSearchConfig futureMasterItem 0 <
      calculateRecencyScore defaultSearchConfig futureClipItem 0 ∧
    1 < calculateRecencyScore defaultSearchConfig futureClipItem 0 := by
  have hm : calculateRecencyScore defaultSearchConfig futureMasterItem 0 =
      Real.exp (86400 / 604800) := by
    simp only [calculateRecencyScore, futureMasterItem, defaultSearchConfig]
    norm_num
  have hc : calculateRecencyScore defaultSearchConfig futureClipItem 0 =
      Real.exp 1 := by
    simp only [calculateRecencyScore, futureClipItem, defaultSearchConfig]
    norm_num
  rw [hm, hc]
  exact ⟨Real.exp_lt_exp.mpr (by norm_num), Real.one_lt_exp_iff.mpr (by norm_num)⟩

lemma find?_map_comm {α : Type} (g : α → α) (p : α → Bool)
    (h : ∀ a, p (g a) = p a) : ∀ l : List α, (l.map g).find? p = (l.find? p).map g := by
  intro l
  induction l with
  | nil => rfl
  | cons a l ih =>
    rw [List.map_cons]
    by_cases hpa : p a = true
    · rw [List.find?_cons_of_pos _ ((h a).trans hpa),
        List.find?_cons_of_pos _ hpa]
      rfl
    · rw [List.find?_cons_of_neg _ (by rw [h a]; exact hpa),
        List.find?_cons_of_neg _ hpa]
      exact ih

lemma mapFiles_effect (st : MasterState) (fid : Nat) (g : MasterFile → MasterFile)
    (hid : ∀ f, (g f).id = f.id) (h : ∃ x ∈ st.files, x.id = fid) :
    ∃ f0, st.files.find? (fun f => f.id == fid) = some f0 ∧ (f0.id == fid) = true ∧
      (st.files.map g).find? (fun f => f.id == fid) = some (g f0) := by
  obtain ⟨x, hx, hxid⟩ := h
  have hsome : (st.files.find? (fun f => f.id == fid)).isSome := by
    rw [List.find?_isSome]
    exact ⟨x, hx, by simp [hxid]⟩
  obtain ⟨f0, hf0⟩ := Option.isSome_iff_exists.mp hsome
  have h3 := List.find?_some hf0
  refine ⟨f0, hf0, h3, ?_⟩
  rw [find?_map_comm g _ (fun a => by simp [hid a]), hf0]
  rfl

lemma markFileError_effect (st : MasterState) (fid : Nat) (err : String)
    (h : ∃ x ∈ st.files, x.id = fid) :
    fileEnabled (markFileError st fid err) fid = false ∧
    lastErrorOf (markFileError st fid err) fid = some (some (err.take 500)) := by
  obtain ⟨f0, _, hpos, hmap⟩ := mapFiles_effect st fid
    (fun f => if f.id == fid then
      { f with lastError := some (err.take 500), isEnabled := false } else f)
    (fun f => by by_cases hf : (f.id == fid) = true <;> simp [hf]) h
  constructor
  · unfold fileEnabled markFileError
    rw [hmap]
    simp [hpos]
  · unfold lastErrorOf markFileError
    rw [hmap]
    simp [hpos]

lemma clearErrorAndEnable_effect (st : MasterState) (fid : Nat)
    (h : ∃ x ∈ st.files, x.id = fid) :
    fileEnabled (clearErrorAndEnable st fid) fid = true ∧
    lastErrorOf (clearErrorAndEnable st fid) fid = some none := by
  obtain ⟨f0, _, hpos, hmap⟩ := mapFiles_effect st fid
    (fun f => if f.id == fid then
      { f with lastError := none, isEnabled := true } else f)
    (fun f => by by_cases hf : (f.id == fid) = true <;> simp [hf]) h
  constructor
  · unfold fileEnabled clearErrorAndEnable
    rw [hmap]
    simp [hpos]
  · unfold lastErrorOf clearErrorAndEnable
    rw [hmap]
    simp [hpos]

lemma not_mem_enabled_of_disabled (st : MasterState) (fid : Nat)
    (h : fileEnabled st fid = false) :
    ∀ i ∈ getAllMasterItems st, i.masterFileId ≠ fid := by
  intro i hi hif
  unfold getAllMasterItems at hi
  rw [List.mem_filter] at hi
  obtain ⟨-, h2⟩ := hi
  rw [hif, h] at h2
  simp at h2

lemma insertFold_files (fid : Nat) : ∀ (items : List (String × Nat)) (s : MasterState),
    ((items.map (fun ci => insertItemOp fid ci.1 ci.2)).foldl (fun s f => f s) s).files
      = s.files := by
  intro items
  induction items with
  | nil => intro s; rfl
  | cons ci items ih =>
    intro s
    rw [List.map_cons, List.foldl_cons]
    exact ih _

lemma insertFold_items_proj (fid : Nat) : ∀ (items : List (String × Nat)) (s : MasterState),
    (((items.map (fun ci => insertItemOp fid ci.1 ci.2)).foldl (fun s f => f s) s).items.filter
        (fun i => i.masterFileId == fid)).map (fun i => (i.content, i.rowNumber)) =
      (s.items.filter (fun i => i.masterFileId == fid)).map
        (fun i => (i.content, i.rowNumber)) ++ items := by
  intro items
  induction items with
  | nil => intro s; simp
  | cons ci items ih =>
    intro s
    rw [List.map_cons, List.foldl_cons, ih]
    simp [insertItemOp, List.filter_append, List.map_append]

lemma updateMasterItems_none_files (st : MasterState) (fid : Nat)
    (items : List (String × Nat)) (now : ℤ) :
    (updateMasterItems st fid items now none).files =
      st.files.map (fun f => if f.id == fid then
        { f with lastModified := some now, lastError := none } else f) := by
  simp only [updateMasterItems, runTxn, masterWriteOps]
  simp only [List.foldl_cons, List.foldl_append, List.foldl_nil]
  show (stampFileOp fid now _).files = _
  unfold stampFileOp
  rw [insertFold_files]
  rfl

lemma updateMasterItems_none_items_proj (st : MasterState) (fid : Nat)
    (items : List (String × Nat)) (now : ℤ) :
    ((updateMasterItems st fid items now none).items.filter
        (fun i => i.masterFileId == fid)).map (fun i => (i.content, i.rowNumber)) = items := by
  simp only [updateMasterItems, runTxn, masterWriteOps]
  simp only [List.foldl_cons, List.foldl_append, List.foldl_nil]
  show ((((items.map _).foldl _ (deleteItemsOp fid st)).items.filter _).map _) = items
  rw [insertFold_items_proj]
  simp [deleteItemsOp, List.filter_filter]

lemma updateMasterItems_some (st : MasterState) (fid : Nat)
    (items : List (String × Nat)) (now : ℤ) (k : Nat) :
    updateMasterItems st fid items now (some k) = st := rfl

lemma fileEnabled_map_idPreserving (st : MasterState) (g : MasterFile → MasterFile)
    (hid : ∀ f, (g f).id = f.id) (hen : ∀ f, (g f).isEnabled = f.isEnabled)
    (st' : MasterState) (h : st'.files = st.files.map g) (x : Nat) :
    fileEnabled st' x = fileEnabled st x := by
  unfold fileEnabled
  rw [h, find?_map_comm g _ (fun a => by simp [hid a])]
  cases st.files.find? (fun f => f.id == x) with
  | none => rfl
  | some f => simp [hen]

lemma updateMasterItems_fileEnabled (st : MasterState) (fid : Nat)
    (items : List (String × Nat)) (now : ℤ) (failAt : Option Nat) (x : Nat) :
    fileEnabled (updateMasterItems st fid items now failAt) x = fileEnabled st x := by
  cases failAt with
  | some k => rfl
  | none =>
    refine fileEnabled_map_idPreserving st
      (fun f => if f.id == fid then
        { f with lastModified := some now, lastError := none } else f)
      (fun f => by by_cases hf : (f.id == fid) = true <;> simp [hf])
      (fun f => by by_cases hf : (f.id == fid) = true <;> simp [hf])
      _ (updateMasterItems_none_files st fid items now) x

lemma updateMasterItems_id_witness (st : MasterState) (fid : Nat)
    (items : List (String × Nat)) (now : ℤ) (failAt : Option Nat) (f : MasterFile)
    (hf : f ∈ st.files) :
    ∃ g ∈ (updateMasterItems st fid items now failAt).files, g.id = f.id := by
  cases failAt with
  | some k => exact ⟨f, hf, rfl⟩
  | none =>
    rw [updateMasterItems_none_files]
    refine ⟨_, List.mem_map_of_mem _ hf, ?_⟩
    by_cases h : (f.id == fid) = true <;> simp [h]

lemma enabledItemsOf_cases (st : MasterState) (fid : Nat) :
    enabledItemsOf st fid =
      if fileEnabled st fid then
        (st.items.filter (fun i => i.masterFileId == fid)).map
          (fun i => (i.content, i.rowNumber))
      else [] := by
  unfold enabledItemsOf getAllMasterItems
  rw [List.filter_filter]
  split_ifs with h
  · congr 1
    apply List.filter_congr
    intro i _
    by_cases hi : (i.masterFileId == fid) = true
    · have hieq : i.masterFileId = fid := by simpa using hi
      simp [hi, hieq, h]
    · simp [hi]
  · rw [List.map_eq_nil_iff]
    rw [List.filter_eq_nil_iff]
    intro i _
    by_cases hi : (i.masterFileId == fid) = true
    · have hieq : i.masterFileId = fid := by simpa using hi
      simp [hi, hieq, h]
    · simp [hi]

/-- C5.  Atomic master reindex: for every store, source, item list and
failure point, the enabled master items of that source after
`update_master_items` are either exactly the complete old set (any
failure rolls the transaction back) or exactly the complete new item
list — never a partial mix. -/
theorem C5_atomic_reindex (st : MasterState) (fid : Nat) (items : List (String × Nat))
    (now : ℤ) (failAt : Option Nat) :
    enabledItemsOf (updateMasterItems st fid items now failAt) fid =
      enabledItemsOf st fid ∨
    enabledItemsOf (updateMasterItems st fid items now failAt) fid = items := by
  cases failAt with
  | some k => left; rfl
  | none =>
    have hfe := updateMasterItems_fileEnabled st fid items now none fid
    by_cases h : fileEnabled st fid = true
    · right
      rw [enabledItemsOf_cases, hfe, if_pos h]
      exact updateMasterItems_none_items_proj st fid items now
    · left
      rw [enabledItemsOf_cases, enabledItemsOf_cases, hfe]
      simp [h]

lemma rebuildIndex_loadFailed (st : MasterState) (path : String) (msg : String)
    (wf : Option Nat) (now : ℤ) (f : MasterFile)
    (hfind : st.files.find? (fun g => g.filePath == path) = some f) :
    rebuildIndex st path (.loadFailed msg) wf now = markFileError st f.id msg := by
  unfold rebuildIndex
  rw [if_neg (fun hcontra => WorkbookLoad.noConfusion hcontra), hfind]

lemma rebuildIndex_noActiveSheet (st : MasterState) (path : String)
    (wf : Option Nat) (now : ℤ) (f : MasterFile)
    (hfind : st.files.find? (fun g => g.filePath == path) = some f) :
    rebuildIndex st path .noActiveSheet wf now =
      markFileError st f.id "No active sheet found" := by
  unfold rebuildIndex
  rw [if_neg (fun hcontra => WorkbookLoad.noConfusion hcontra), hfind]

lemma rebuildIndex_sheet (st : MasterState) (path : String)
    (cells : List (Option String)) (wf : Option Nat) (now : ℤ) (f : MasterFile)
    (hfind : st.files.find? (fun g => g.filePath == path) = some f) :
    rebuildIndex st path (.sheet cells) wf now =
      clearErrorAndEnable (updateMasterItems st f.id (extractItems cells) now wf) f.id := by
  unfold rebuildIndex
  rw [if_neg (fun hcontra => WorkbookLoad.noConfusion hcontra), hfind]

/-- C6 (counterexample).  A reindex whose item write hits a storage
failure does not disable the source: `update_master_items` swallows the
error, so the rebuild re-enables the source with its error cleared while
the stale old items stay visible in the enabled-items query. -/
theorem C6_cex_swallowed_write_failure :
    fileEnabled exFailedRebuild 1 = true ∧
    getAllMasterItems exFailedRebuild = [⟨1, 1, "old", 1⟩] ∧
    lastErrorOf exFailedRebuild 1 = some none := by
  refine ⟨by decide, by decide, by decide⟩

/-- C6 (amended).  Failures that raise inside `rebuild_index` are sticky:
an unreadable workbook or a missing active sheet marks the source with
the (truncated) error text and disables it, excluding all of its items
from the enabled-items query; a sheet rebuild re-enables the source and
clears its error.  A storage failure inside the item write, however, is
swallowed and does not disable the source. -/
theorem C6_sticky_reindex_error (st : MasterState) (path : String) (f : MasterFile)
    (msg : String) (wf : Option Nat) (now : ℤ)
    (hfind : st.files.find? (fun g => g.filePath == path) = some f) :
    (fileEnabled (rebuildIndex st path (.loadFailed msg) wf now) f.id = false ∧
     lastErrorOf (rebuildIndex st path (.loadFailed msg) wf now) f.id =
       some (some (msg.take 500)) ∧
     ∀ i ∈ getAllMasterItems (rebuildIndex st path (.loadFailed msg) wf now),
       i.masterFileId ≠ f.id) ∧
    (fileEnabled (rebuildIndex st path .noActiveSheet wf now) f.id = false ∧
     ∀ i ∈ getAllMasterItems (rebuildIndex st path .noActiveSheet wf now),
       i.masterFileId ≠ f.id) ∧
    ∀ cells, fileEnabled (rebuildIndex st path (.sheet cells) wf now) f.id = true ∧
      lastErrorOf (rebuildIndex st path (.sheet cells) wf now) f.id = some none := by
  have hmem : f ∈ st.files := List.mem_of_find?_eq_some hfind
  have hex : ∃ x ∈ st.files, x.id = f.id := ⟨f, hmem, rfl⟩
  refine ⟨?_, ?_, ?_⟩
  · rw [rebuildIndex_loadFailed st path msg wf now f hfind]
    obtain ⟨he, hl⟩ := markFileError_effect st f.id msg hex
    exact ⟨he, hl, not_mem_enabled_of_disabled _ _ he⟩
  · rw [rebuildIndex_noActiveSheet st path wf now f hfind]
    obtain ⟨he, _⟩ := markFileError_effect st f.id "No active sheet found" hex
    exact ⟨he, not_mem_enabled_of_disabled _ _ he⟩
  · intro cells
    rw [rebuildIndex_sheet st path cells wf now f hfind]
    exact clearErrorAndEnable_effect _ f.id
      (updateMasterItems_id_witness st f.id (extractItems cells) now wf f hmem)

/-- Witness for C6 on the concrete one-source store with an unreadable
workbook. -/
theorem C6_sticky_reindex_error_witness :
    fileEnabled (rebuildIndex exMasterState "m.xlsx"
      (.loadFailed "boom") none 0) 1 = false :=
  (C6_sticky_reindex_error exMasterState "m.xlsx" ⟨1, "m.xlsx", true, none, none⟩
    "boom" none 0 (by decide)).1.1

end ShiftPaste
